import Mathlib

/-!
# Verification of the event-broker devtools aggregation core

Shallow embedding of the `DevToolsManager` class (metrics aggregation core of
the devtools panel).  Pure state is modelled explicitly:

* `Metrics` embeds the `internalMetrics` record: total/per-type event counters,
  the latency sample buffer, ACK/NACK tallies, the pending event-start timers,
  and the per-client sent/received counters.  JavaScript `Map`s and
  `Record<string, number>` objects with the `get(x) || 0` access pattern are
  embedded as total functions `String → Nat` (default `0`), and the timer map
  as `String → Option Nat`.
* `DTState` carries the event history (`state.events`), the configured
  `maxEventHistory` and the metrics.  UI-only state (settings, clients view,
  connectivity flag) and the opaque payload/timestamp string fields, which no
  operation here inspects, are omitted.
* Wall-clock reads (`Date.now()`) become explicit `now : Nat` parameters;
  the broker (presence, and its live `getSubscriptions()` table) becomes an
  explicit `Option Subs` parameter of the completion handler: `none` covers
  the detached-broker / null-table / thrown-query cases, which all produce no
  fan-out in the source.
* JavaScript truthiness on strings (`event.source`, `options.recipient`,
  `mfe-recipient`) is embedded faithfully: the empty string is falsy; absent
  optional properties are `none`.
-/

/-- Lifecycle status of an event record (`EventDetails.status`). -/
inductive EvStatus where
  | pending
  | delivered
  | failed
deriving DecidableEq, Repr

/-- The event object passed to the broker hooks.  The opaque `data` payload
and the `time` string are never inspected by the aggregation logic modelled
here and are omitted.  `mfeRecipient` embeds the optional string property
`event["mfe-recipient"]`; `none` also covers a present-but-empty string,
which every use site treats as falsy. -/
structure Ev where
  id : String
  type : String
  source : Option String
  mfeRecipient : Option String
deriving DecidableEq, Repr

/-- The broker-supplied `EventResult`; only its `status` string is inspected
(`eventResult?.status === "ACK"`), the other fields (message, timestamp,
clientId, data) are opaque and omitted. -/
structure EventResult where
  status : String
deriving DecidableEq, Repr

/-- One record of the event history (`EventDetails`).  The opaque
`timestamp`/`data` fields are omitted; `brokerResponse` keeps the one field
ever inspected, the result status string. -/
structure EventDetails where
  id : String
  type : String
  source : Option String
  recipient : String
  status : EvStatus
  latency : Option Nat
  deliverySuccess : Option Bool
  brokerResponse : Option String
deriving DecidableEq, Repr

/-- The `internalMetrics` record of `DevToolsManager`. -/
structure Metrics where
  total : Nat
  byType : String → Nat
  latencies : List Nat
  acksTotal : Nat
  acksByType : String → Nat
  nacksTotal : Nat
  nacksByType : String → Nat
  eventTimers : String → Option Nat
  clientEventsSent : String → Nat
  clientEventsReceived : String → Nat

/-- The live subscription table returned by `broker.getSubscriptions()`:
association list client id → subscribed event types (object key order). -/
abbrev Subs := List (String × List String)

/-- Increment a string-keyed counter map at one key
(the `map.set(k, (map.get(k) || 0) + 1)` pattern). -/
def bump (f : String → Nat) (k : String) : String → Nat :=
  fun x => if x == k then f k + 1 else f x

/-- Mutable state of one `DevToolsManager` relevant to the aggregation core:
the configured history cap, the visible event history and the internal
metrics. -/
structure DTState where
  maxEventHistory : Nat
  events : List EventDetails
  metrics : Metrics

/-- Fresh `internalMetrics` (all counters zero, empty maps and buffers). -/
def initMetrics : Metrics where
  total := 0
  byType := fun _ => 0
  latencies := []
  acksTotal := 0
  acksByType := fun _ => 0
  nacksTotal := 0
  nacksByType := fun _ => 0
  eventTimers := fun _ => none
  clientEventsSent := fun _ => 0
  clientEventsReceived := fun _ => 0

/-- State of a freshly constructed manager with history cap `maxH`
(constructor default: 1000). -/
def initState (maxH : Nat) : DTState where
  maxEventHistory := maxH
  events := []
  metrics := initMetrics

/-- `addEvent`, history part: append, then
`events.splice(0, events.length - maxEventHistory)` once the cap is
exceeded (oldest-first eviction). -/
def addEventList (maxH : Nat) (l : List EventDetails) (e : EventDetails) :
    List EventDetails :=
  let events := l ++ [e]
  if events.length > maxH then events.drop (events.length - maxH) else events

/-- `addEvent`: push a record into the bounded history. -/
def addEvent (s : DTState) (e : EventDetails) : DTState :=
  { s with events := addEventList s.maxEventHistory s.events e }

/-- `updateEvent`: map the update over every record whose id matches. -/
def updateEvent (s : DTState) (eventId : String)
    (f : EventDetails → EventDetails) : DTState :=
  { s with events := s.events.map fun e => if e.id == eventId then f e else e }

/-- The `EventDetails` literal built in `handleEventStart` (and identically in
the catch-up branch of `handleEventComplete`): status `pending`, recipient
defaulted to `"*"` when the `mfe-recipient` property is absent (or empty,
i.e. falsy). -/
def mkEventDetails (event : Ev) : EventDetails where
  id := event.id
  type := event.type
  source := event.source
  recipient := (event.mfeRecipient.getD "*")
  status := .pending
  latency := none
  deliverySuccess := none
  brokerResponse := none

/-- `if (event.source) { clientEventsSent.set(source, cur + 1) }`
(JS truthiness: absent or empty source is skipped). -/
def recordSent (m : Metrics) : Option String → Metrics
  | some src =>
      if src == "" then m
      else { m with clientEventsSent := bump m.clientEventsSent src }
  | none => m

/-- `handleEventStart`: record the start timer, increment total and per-type
counters, increment the source client's sent counter, and push a `pending`
record into the history.  No existence check is performed. -/
def handleEventStart (s : DTState) (event : Ev) (now : Nat) : DTState :=
  let m := s.metrics
  let m := { m with
    eventTimers := fun id => if id == event.id then some now else m.eventTimers id,
    total := m.total + 1,
    byType := bump m.byType event.type }
  let m := recordSent m event.source
  addEvent { s with metrics := m } (mkEventDetails event)

/-- `eventResult?.status === "ACK"`. -/
def isAckOpt : Option EventResult → Bool
  | some r => r.status == "ACK"
  | none => false

/-- Catch-up branch of `handleEventComplete`: if no record with this id is in
the history, repeat the counter increments of `handleEventStart` and push a
`pending` record (no timer is recorded on this path). -/
def catchUp (s : DTState) (event : Ev) : DTState :=
  if (s.events.find? fun e => e.id == event.id).isSome then s
  else
    let m := s.metrics
    let m := { m with
      total := m.total + 1,
      byType := bump m.byType event.type }
    let m := recordSent m event.source
    addEvent { s with metrics := m } (mkEventDetails event)

/-- JS truthiness on the stored start time (`if (startTime)`): a recorded
value of `0` is falsy. -/
def truthyTimer : Option Nat → Option Nat
  | some 0 => none
  | o => o

/-- Push one latency sample:
`latencies.push(lat); if (latencies.length > 1000) latencies = latencies.slice(-500)`. -/
def pushLatency (lats : List Nat) (lat : Nat) : List Nat :=
  let l := lats ++ [lat]
  if l.length > 1000 then l.drop (l.length - 500) else l

/-- The last `n` elements of a list (`slice(-n)` semantics). -/
def lastN (n : Nat) (l : List α) : List α :=
  l.drop (l.length - n)

/-- Latency part of `handleEventComplete`: if a (truthy) start time was
recorded for this id, append `now - start` to the bounded sample buffer and
delete the timer entry; otherwise do nothing. -/
def applyLatency (s : DTState) (eventId : String) (now : Nat) : DTState :=
  match truthyTimer (s.metrics.eventTimers eventId) with
  | some st =>
      { s with metrics := { s.metrics with
          latencies := pushLatency s.metrics.latencies (now - st),
          eventTimers := fun id =>
            if id == eventId then none else s.metrics.eventTimers id } }
  | none => s

/-- The fan-out loop of `handleBroadcastEventComplete` over the subscription
table: skip the sender (`clientId === event.source`), and increment the
received counter of every client whose subscription list contains the event
type. -/
def fanOutReceived (source : Option String) (etype : String) (subs : Subs)
    (recv : String → Nat) : String → Nat :=
  subs.foldl (fun acc p =>
    if source == some p.1 then acc
    else if p.2.contains etype then bump acc p.1
    else acc) recv

/-- `handleBroadcastEventComplete`: with no attached broker (which also
covers a null subscription table and a thrown `getSubscriptions` query, all
caught and producing no increments) or a non-ACK result, do nothing;
otherwise fan out a received-count increment over the live subscription
table. -/
def handleBroadcastEventComplete (s : DTState) (event : Ev)
    (eventResult : Option EventResult) (broker : Option Subs) : DTState :=
  match broker with
  | none => s
  | some subs =>
      if isAckOpt eventResult = false then s
      else
        { s with metrics := { s.metrics with
            clientEventsReceived :=
              fanOutReceived event.source event.type subs
                s.metrics.clientEventsReceived } }

/-- Received-counter part of `handleEventComplete`: only on success; `"*"`
recipient takes the broadcast fan-out path, a truthy concrete recipient gets
a single increment, an absent (or falsy) recipient gets nothing. -/
def applyReceived (s : DTState) (event : Ev) (eventResult : Option EventResult)
    (broker : Option Subs) : DTState :=
  if isAckOpt eventResult then
    match event.mfeRecipient with
    | some r =>
        if r == "*" then handleBroadcastEventComplete s event eventResult broker
        else if r == "" then s
        else
          { s with metrics := { s.metrics with
              clientEventsReceived := bump s.metrics.clientEventsReceived r } }
    | none => s
  else s

/-- ACK/NACK tally part of `handleEventComplete`. -/
def recordTally (m : Metrics) (etype : String) (isSuccess : Bool) : Metrics :=
  if isSuccess then
    { m with acksTotal := m.acksTotal + 1, acksByType := bump m.acksByType etype }
  else
    { m with nacksTotal := m.nacksTotal + 1, nacksByType := bump m.nacksByType etype }

/-- The record update applied by `handleEventComplete` through
`updateEvent`: finalize status, delivery result, broker-response summary and
latency. -/
def completeUpd (isSuccess : Bool) (respStatus : Option String)
    (lat : Option Nat) (e : EventDetails) : EventDetails :=
  { e with
    status := if isSuccess then .delivered else .failed,
    deliverySuccess := some isSuccess,
    brokerResponse := respStatus,
    latency := lat }

/-- `handleEventComplete`: catch-up for an unseen id, latency bookkeeping,
received-counter fan-out on success, ACK/NACK tally, and finalization of the
stored record(s) with this id. -/
def handleEventComplete (s : DTState) (event : Ev)
    (eventResult : Option EventResult) (now : Nat) (broker : Option Subs) :
    DTState :=
  let s1 := catchUp s event
  let startTime := truthyTimer (s1.metrics.eventTimers event.id)
  let s2 := applyLatency s1 event.id now
  let isSuccess := isAckOpt eventResult
  let s3 := applyReceived s2 event eventResult broker
  let s4 := { s3 with metrics := recordTally s3.metrics event.type isSuccess }
  updateEvent s4 event.id
    (completeUpd isSuccess (eventResult.map (·.status))
      (startTime.map fun st => now - st))

/-- `clearEvents`: replace the history with the empty list; nothing else is
touched. -/
def clearEvents (s : DTState) : DTState :=
  { s with events := [] }

/-- One notification delivered to the attached core by the hook adapter:
either a pre-send (`useBeforeSendHook`) or a post-send (`useAfterSendHook`)
call.  The post-send variant carries the broker context queried live at
handling time. -/
inductive Notif where
  | preSend (event : Ev) (now : Nat)
  | postSend (event : Ev) (result : Option EventResult) (now : Nat)
      (broker : Option Subs)
deriving Repr

/-- The event id a notification is about. -/
def notifId : Notif → String
  | .preSend e _ => e.id
  | .postSend e _ _ _ => e.id

/-- Whether a notification is a pre-send. -/
def isPre : Notif → Bool
  | .preSend _ _ => true
  | .postSend _ _ _ _ => false

/-- Whether a notification is a post-send (completion). -/
def isPost (n : Notif) : Bool := !isPre n

/-- Dispatch one notification to its handler. -/
def step (s : DTState) : Notif → DTState
  | .preSend e now => handleEventStart s e now
  | .postSend e res now broker => handleEventComplete s e res now broker

/-- Deliver a sequence of notifications. -/
def run (s : DTState) (ns : List Notif) : DTState :=
  ns.foldl step s

/-- An operation on the manager: a hook notification or a clear-events
request from the UI. -/
inductive Op where
  | notif (n : Notif)
  | clear
deriving Repr

/-- Dispatch one operation. -/
def stepOp (s : DTState) : Op → DTState
  | .notif n => step s n
  | .clear => clearEvents s

/-- Run a sequence of operations. -/
def runOps (s : DTState) (ops : List Op) : DTState :=
  ops.foldl stepOp s

/-- `calculateSuccessRate`: `acks / (acks + nacks)`, `0` when no deliveries
have completed.  The JavaScript number division is embedded as exact rational
division. -/
def calculateSuccessRate (m : Metrics) : ℚ :=
  let total := m.acksTotal + m.nacksTotal
  if total > 0 then (m.acksTotal : ℚ) / (total : ℚ) else 0

/-- Number of non-pending (completed) records in the history. -/
def nonPendingCount (s : DTState) : Nat :=
  (s.events.filter fun e => !(e.status == EvStatus.pending)).length

/-- The ids of the records currently in the history. -/
def histIds (s : DTState) : List String :=
  s.events.map EventDetails.id

/-! ## Frame lemmas for the handler components -/

theorem recordSent_received (m : Metrics) (src : Option String) :
    (recordSent m src).clientEventsReceived = m.clientEventsReceived := by
  cases src with
  | none => rfl
  | some s => simp only [recordSent]; split <;> rfl

theorem recordSent_total (m : Metrics) (src : Option String) :
    (recordSent m src).total = m.total := by
  cases src with
  | none => rfl
  | some s => simp only [recordSent]; split <;> rfl

theorem recordSent_acks (m : Metrics) (src : Option String) :
    (recordSent m src).acksTotal = m.acksTotal ∧
      (recordSent m src).nacksTotal = m.nacksTotal := by
  cases src with
  | none => exact ⟨rfl, rfl⟩
  | some s => simp only [recordSent]; constructor <;> (split <;> rfl)

theorem recordSent_latencies (m : Metrics) (src : Option String) :
    (recordSent m src).latencies = m.latencies := by
  cases src with
  | none => rfl
  | some s => simp only [recordSent]; split <;> rfl

theorem addEvent_metrics (s : DTState) (e : EventDetails) :
    (addEvent s e).metrics = s.metrics := rfl

theorem addEvent_max (s : DTState) (e : EventDetails) :
    (addEvent s e).maxEventHistory = s.maxEventHistory := rfl

theorem addEvent_events (s : DTState) (e : EventDetails) :
    (addEvent s e).events = addEventList s.maxEventHistory s.events e := rfl

theorem updateEvent_metrics (s : DTState) (i : String)
    (f : EventDetails → EventDetails) :
    (updateEvent s i f).metrics = s.metrics := rfl

theorem updateEvent_max (s : DTState) (i : String)
    (f : EventDetails → EventDetails) :
    (updateEvent s i f).maxEventHistory = s.maxEventHistory := rfl

theorem catchUp_received (s : DTState) (e : Ev) :
    (catchUp s e).metrics.clientEventsReceived
      = s.metrics.clientEventsReceived := by
  unfold catchUp
  split
  · rfl
  · simp only [addEvent_metrics, recordSent_received]

theorem catchUp_latencies (s : DTState) (e : Ev) :
    (catchUp s e).metrics.latencies = s.metrics.latencies := by
  unfold catchUp
  split
  · rfl
  · simp only [addEvent_metrics, recordSent_latencies]

theorem catchUp_acks (s : DTState) (e : Ev) :
    (catchUp s e).metrics.acksTotal = s.metrics.acksTotal ∧
      (catchUp s e).metrics.nacksTotal = s.metrics.nacksTotal := by
  unfold catchUp
  split
  · exact ⟨rfl, rfl⟩
  · simp only [addEvent_metrics]
    exact recordSent_acks _ _

theorem catchUp_max (s : DTState) (e : Ev) :
    (catchUp s e).maxEventHistory = s.maxEventHistory := by
  unfold catchUp
  split
  · rfl
  · rfl

theorem applyLatency_events (s : DTState) (i : String) (now : Nat) :
    (applyLatency s i now).events = s.events := by
  unfold applyLatency
  split <;> rfl

theorem applyLatency_max (s : DTState) (i : String) (now : Nat) :
    (applyLatency s i now).maxEventHistory = s.maxEventHistory := by
  unfold applyLatency
  split <;> rfl

theorem applyLatency_received (s : DTState) (i : String) (now : Nat) :
    (applyLatency s i now).metrics.clientEventsReceived
      = s.metrics.clientEventsReceived := by
  unfold applyLatency
  split <;> rfl

theorem applyLatency_total (s : DTState) (i : String) (now : Nat) :
    (applyLatency s i now).metrics.total = s.metrics.total := by
  unfold applyLatency
  split <;> rfl

theorem applyLatency_acks (s : DTState) (i : String) (now : Nat) :
    (applyLatency s i now).metrics.acksTotal = s.metrics.acksTotal ∧
      (applyLatency s i now).metrics.nacksTotal = s.metrics.nacksTotal := by
  unfold applyLatency
  constructor <;> (split <;> rfl)

theorem handleBroadcastEventComplete_events (s : DTState) (e : Ev)
    (res : Option EventResult) (broker : Option Subs) :
    (handleBroadcastEventComplete s e res broker).events = s.events := by
  unfold handleBroadcastEventComplete
  split
  · rfl
  · split <;> rfl

theorem handleBroadcastEventComplete_max (s : DTState) (e : Ev)
    (res : Option EventResult) (broker : Option Subs) :
    (handleBroadcastEventComplete s e res broker).maxEventHistory
      = s.maxEventHistory := by
  unfold handleBroadcastEventComplete
  split
  · rfl
  · split <;> rfl

theorem handleBroadcastEventComplete_total (s : DTState) (e : Ev)
    (res : Option EventResult) (broker : Option Subs) :
    (handleBroadcastEventComplete s e res broker).metrics.total
      = s.metrics.total := by
  unfold handleBroadcastEventComplete
  split
  · rfl
  · split <;> rfl

theorem applyReceived_events (s : DTState) (e : Ev)
    (res : Option EventResult) (broker : Option Subs) :
    (applyReceived s e res broker).events = s.events := by
  unfold applyReceived
  split
  · split
    · split
      · exact handleBroadcastEventComplete_events _ _ _ _
      · split <;> rfl
    · rfl
  · rfl

theorem applyReceived_max (s : DTState) (e : Ev)
    (res : Option EventResult) (broker : Option Subs) :
    (applyReceived s e res broker).maxEventHistory = s.maxEventHistory := by
  unfold applyReceived
  split
  · split
    · split
      · exact handleBroadcastEventComplete_max _ _ _ _
      · split <;> rfl
    · rfl
  · rfl

theorem applyReceived_total (s : DTState) (e : Ev)
    (res : Option EventResult) (broker : Option Subs) :
    (applyReceived s e res broker).metrics.total = s.metrics.total := by
  unfold applyReceived
  split
  · split
    · split
      · exact handleBroadcastEventComplete_total _ _ _ _
      · split <;> rfl
    · rfl
  · rfl

theorem recordTally_received (m : Metrics) (t : String) (b : Bool) :
    (recordTally m t b).clientEventsReceived = m.clientEventsReceived := by
  unfold recordTally
  split <;> rfl

theorem recordTally_total (m : Metrics) (t : String) (b : Bool) :
    (recordTally m t b).total = m.total := by
  unfold recordTally
  split <;> rfl

theorem recordTally_latencies (m : Metrics) (t : String) (b : Bool) :
    (recordTally m t b).latencies = m.latencies := by
  unfold recordTally
  split <;> rfl

/-! ## C6: clear-events frame condition -/

/-- C6: `clearEvents` replaces the history with the empty list and changes
nothing else: the whole `internalMetrics` record (per-client sent/received
counters, ACK/NACK totals and per-type tallies, latency samples, timers) and
the configured cap are untouched. -/
theorem clearEvents_frame (s : DTState) :
    (clearEvents s).events = [] ∧
    (clearEvents s).metrics = s.metrics ∧
    (clearEvents s).maxEventHistory = s.maxEventHistory :=
  ⟨rfl, rfl, rfl⟩

/-! ## C9: test-message dispatch -/

/-- A send command issued to the broker by `sendTestMessage`. -/
inductive BrokerCmd where
  | sendTo (eventType sender recipient payload : String)
  | broadcast (eventType sender payload : String)
deriving DecidableEq, Repr

/-- `options?.source || "devtools"` (JS truthiness: absent or empty source
falls back to the default sender). -/
def senderName : Option String → String
  | some s => if s == "" then "devtools" else s
  | none => "devtools"

/-- `sendTestMessage`: with no attached broker, warn and send nothing;
otherwise issue `sendTo` when a truthy recipient other than `"*"` was
supplied (`options?.recipient && options.recipient !== "*"`), and
`broadcast` otherwise. -/
def sendTestMessage (hasBroker : Bool) (eventType : String) (payload : String)
    (recipient source : Option String) : List BrokerCmd :=
  if hasBroker = false then []
  else
    let sender := senderName source
    match recipient with
    | some r =>
        if r != "" && r != "*" then [.sendTo eventType sender r payload]
        else [.broadcast eventType sender payload]
    | none => [.broadcast eventType sender payload]

/-- C9 counterexample: supplying the empty string as recipient — a concrete
recipient different from `"*"` — issues the broadcast command, not the
unicast command the claim requires, because the recipient check is a JS
truthiness test. -/
theorem sendTestMessage_counterexample :
    sendTestMessage true "x" "p" (some "") none
        = [BrokerCmd.broadcast "x" "devtools" "p"] ∧
    BrokerCmd.sendTo "x" "devtools" "" "p"
        ∉ sendTestMessage true "x" "p" (some "") none := by
  exact ⟨rfl, by decide⟩

/-- C9 (amended): with a broker attached, `sendTestMessage` issues the
broadcast command (and not the unicast command) exactly when the supplied
recipient is `"*"`, absent, or the empty string; for any other supplied
recipient it issues the unicast command with that recipient (and not the
broadcast command). -/
theorem sendTestMessage_dispatch (eventType payload : String)
    (recipient source : Option String) :
    (sendTestMessage true eventType payload recipient source
        = [BrokerCmd.broadcast eventType (senderName source) payload] ↔
      recipient = none ∨ recipient = some "*" ∨ recipient = some "") ∧
    (∀ r, recipient = some r → r ≠ "*" → r ≠ "" →
      sendTestMessage true eventType payload recipient source
        = [BrokerCmd.sendTo eventType (senderName source) r payload]) := by
  constructor
  · cases recipient with
    | none => simp [sendTestMessage]
    | some r =>
      by_cases h1 : r = "*"
      · subst h1; simp [sendTestMessage]
      · by_cases h2 : r = ""
        · subst h2; simp [sendTestMessage]
        · simp [sendTestMessage, h1, h2]
  · intro r hr h1 h2
    subst hr
    simp [sendTestMessage, h1, h2]

/-- C9 witness: a concrete unicast dispatch obtained from
`sendTestMessage_dispatch`. -/
theorem sendTestMessage_dispatch_witness :
    sendTestMessage true "x" "p" (some "c") none
        = [BrokerCmd.sendTo "x" "devtools" "c" "p"] :=
  (sendTestMessage_dispatch "x" "p" (some "c") none).2 "c" rfl
    (by decide) (by decide)

/-! ## C7: detach function -/

/-- One externally visible action performed by the detach closure returned
from `attachTo`: invoking one of the three hook-unregistration cleanups, or
clearing the periodic snapshot timer. -/
inductive DetachAction where
  | unregSubscribe
  | unregBefore
  | unregAfter
  | clearIntervalA (handle : Nat)
deriving DecidableEq, Repr

/-- Whether an action is one of the hook unregistrations. -/
def DetachAction.isUnregister : DetachAction → Bool
  | .clearIntervalA _ => false
  | _ => true

/-- The part of the manager state the detach closure touches: the periodic
timer handle (`updateInterval`) and the listener registry cleared by
`cleanup()`.  The broker reference is never cleared by detach and is
omitted. -/
structure AttachExt where
  updateInterval : Option Nat
  listeners : List String
deriving DecidableEq, Repr

/-- `stopPeriodicUpdates`: guarded `clearInterval` — only fires when a timer
handle is present, then resets the handle. -/
def stopPeriodicUpdates (s : AttachExt) : AttachExt × List DetachAction :=
  match s.updateInterval with
  | some h => ({ s with updateInterval := none }, [.clearIntervalA h])
  | none => (s, [])

/-- The detach closure returned by `attachTo`: run every collected hook
cleanup (subscription hook first, when the broker exposes it, then the
before-send and after-send cleanups), then `stopPeriodicUpdates`, then
`cleanup()` (clear the listener registry).  The returned list records the
external actions in execution order. -/
def detach (hasSubscribeHook : Bool) (s : AttachExt) :
    AttachExt × List DetachAction :=
  let unregs := (if hasSubscribeHook then [DetachAction.unregSubscribe] else [])
      ++ [DetachAction.unregBefore, DetachAction.unregAfter]
  let p := stopPeriodicUpdates s
  ({ p.1 with listeners := [] }, unregs ++ p.2)

/-- C7 counterexample: in the single-call action sequence of `detach`, the
timer stop does NOT precede the hook unregistrations — the unregistrations
come first and `clearInterval` last, so the ordering half of the claim is
false.  The claimed ordering would require that once an unregistration has
occurred, no timer stop follows, i.e. every later action is still an
unregistration. -/
theorem detach_order_counterexample :
    (detach true { updateInterval := some 5, listeners := ["l"] }).2
      = [.unregSubscribe, .unregBefore, .unregAfter, .clearIntervalA 5] ∧
    ¬ ((detach true { updateInterval := some 5, listeners := ["l"] }).2.Pairwise
        fun a b => a.isUnregister = true → b.isUnregister = true) := by
  exact ⟨rfl, by decide⟩

/-- C7 (amended): the detach closure is idempotent — a second call leaves
the manager state fixed and performs no timer stop (only the already-spent
hook unregistrations are re-invoked) — and, within a single call, the hook
unregistrations precede the timer stop (not the other way round as
claimed). -/
theorem detach_idempotent_order (hasSub : Bool) (s : AttachExt) :
    (detach hasSub (detach hasSub s).1).1 = (detach hasSub s).1 ∧
    (∀ a ∈ (detach hasSub (detach hasSub s).1).2, a.isUnregister = true) ∧
    ((detach hasSub s).2.Pairwise
        fun a b => b.isUnregister = true → a.isUnregister = true) := by
  obtain ⟨ui, ls⟩ := s
  cases ui <;> cases hasSub <;>
    simp [detach, stopPeriodicUpdates, DetachAction.isUnregister,
      List.pairwise_append]

/-- C7 witness: instantiating `detach_idempotent_order` on a concrete state
shows the second call's actions are all unregistrations. -/
theorem detach_idempotent_order_witness :
    DetachAction.isUnregister .unregBefore = true :=
  (detach_idempotent_order true { updateInterval := some 3, listeners := [] }).2.1
    .unregBefore (by decide)

/-! ## C10: absent recipient on completion -/

theorem applyReceived_none (s : DTState) (e : Ev)
    (res : Option EventResult) (broker : Option Subs)
    (hrec : e.mfeRecipient = none) :
    applyReceived s e res broker = s := by
  unfold applyReceived
  rw [hrec]
  split <;> rfl

/-- C10: an ACK completion for an event whose `mfe-recipient` property is
absent increments no client's received counter — neither the broadcast
fan-out nor the unicast path runs, because the raw (undefaulted) recipient
is read at completion time — even though the record creation sites
(`handleEventStart` and the catch-up branch, both building `mkEventDetails`)
default the stored recipient to `"*"`. -/
theorem missing_recipient_no_received (s : DTState) (e : Ev)
    (res : Option EventResult) (now : Nat) (broker : Option Subs) (c : String)
    (hrec : e.mfeRecipient = none) (_hack : isAckOpt res = true) :
    (handleEventComplete s e res now broker).metrics.clientEventsReceived c
        = s.metrics.clientEventsReceived c ∧
    (mkEventDetails e).recipient = "*" := by
  constructor
  · show (updateEvent _ _ _).metrics.clientEventsReceived c = _
    rw [updateEvent_metrics]
    simp only [recordTally_received]
    rw [applyReceived_none _ _ _ _ hrec, applyLatency_received, catchUp_received]
  · simp [mkEventDetails, hrec]

/-- C10 witness: concrete ACK completion with an absent recipient leaves a
concrete client's received counter at zero while the stored record defaults
to `"*"`. -/
theorem missing_recipient_no_received_witness :
    (handleEventComplete (initState 1000)
        { id := "e9", type := "t", source := some "a", mfeRecipient := none }
        (some { status := "ACK" }) 3
        (some [("b", ["t"])])).metrics.clientEventsReceived "b"
      = (initState 1000).metrics.clientEventsReceived "b" ∧
    (mkEventDetails
        { id := "e9", type := "t", source := some "a", mfeRecipient := none }).recipient
      = "*" :=
  missing_recipient_no_received (initState 1000)
    { id := "e9", type := "t", source := some "a", mfeRecipient := none }
    (some { status := "ACK" }) 3 (some [("b", ["t"])]) "b" rfl rfl

/-! ## C4: record status lifecycle -/

theorem mem_addEventList {maxH : Nat} {l : List EventDetails}
    {e r : EventDetails} (h : r ∈ addEventList maxH l e) : r ∈ l ++ [e] := by
  simp only [addEventList] at h
  split at h
  · exact List.drop_subset _ _ h
  · exact h

theorem mem_catchUp_events {s : DTState} {e : Ev} {r : EventDetails}
    (h : r ∈ (catchUp s e).events) : r ∈ s.events ∨ r = mkEventDetails e := by
  unfold catchUp at h
  split at h
  · exact Or.inl h
  · rcases List.mem_append.1 (mem_addEventList h) with h1 | h1
    · exact Or.inl h1
    · exact Or.inr (List.mem_singleton.1 h1)

theorem handleEventComplete_events (s : DTState) (e : Ev)
    (res : Option EventResult) (now : Nat) (broker : Option Subs) :
    (handleEventComplete s e res now broker).events
      = (catchUp s e).events.map fun x =>
          if x.id == e.id then
            completeUpd (isAckOpt res) (res.map (·.status))
              ((truthyTimer ((catchUp s e).metrics.eventTimers e.id)).map
                fun st => now - st) x
          else x := by
  unfold handleEventComplete
  simp only [updateEvent, applyReceived_events, applyLatency_events]

/-- The status a freshly touched record carries after one notification:
`pending` on creation by pre-send, the finalized status on completion. -/
def stepStatus : Notif → EvStatus
  | .preSend _ _ => .pending
  | .postSend _ res _ _ => if isAckOpt res then .delivered else .failed

/-- C4 (amended): in every step, a record of the history is either carried
over unchanged, or it concerns exactly the id of the notification being
processed and its status is the one this notification assigns: `pending`
for a pre-send creation, `delivered`/`failed` (by ACK vs non-ACK) for a
completion.  Hence a stored record never reverts to `pending`; but a status
already `delivered` can still be overwritten to `failed` (and conversely)
when the same id receives a second completion, so the one-shot transition
only holds for traces delivering at most one post-send per id. -/
theorem record_status_provenance (s : DTState) (n : Notif) (r : EventDetails)
    (hmem : r ∈ (step s n).events) :
    r ∈ s.events ∨ (r.id = notifId n ∧ r.status = stepStatus n) := by
  cases n with
  | preSend e now =>
    have h : r ∈ s.events ++ [mkEventDetails e] := mem_addEventList hmem
    rcases List.mem_append.1 h with h1 | h1
    · exact Or.inl h1
    · right
      rw [List.mem_singleton.1 h1]
      exact ⟨rfl, rfl⟩
  | postSend e res now broker =>
    rw [show step s (.postSend e res now broker)
          = handleEventComplete s e res now broker from rfl,
        handleEventComplete_events] at hmem
    rcases List.mem_map.1 hmem with ⟨a, ha, hr⟩
    by_cases hid : (a.id == e.id) = true
    · rw [if_pos hid] at hr
      right
      have hid' : a.id = e.id := by simpa using hid
      rw [← hr]
      exact ⟨hid', rfl⟩
    · rw [if_neg hid] at hr
      rw [← hr]
      rcases mem_catchUp_events ha with h1 | h1
      · exact Or.inl h1
      · exfalso
        apply hid
        rw [h1]
        simp [mkEventDetails]

/-- Fixture event used by concrete traces. -/
def evE1 : Ev := { id := "e1", type := "t", source := some "a", mfeRecipient := none }

/-- Fixture ACK result. -/
def ackR : EventResult := { status := "ACK" }

/-- Fixture NACK result. -/
def nackR : EventResult := { status := "NACK" }

/-- State after a pre-send and an ACK completion for `evE1`. -/
def c4s1 : DTState :=
  run (initState 1000) [.preSend evE1 0, .postSend evE1 (some ackR) 1 none]

/-- C4 counterexample: after a pre-send and an ACK completion, the single
stored record is `delivered`; a second completion for the same id with a
NACK result overwrites it to `failed` — the lifecycle status does revert
from `delivered` to `failed`, refuting the claim for arbitrary notification
sequences. -/
theorem status_revert_counterexample :
    c4s1.events.map EventDetails.status = [.delivered] ∧
    (step c4s1 (.postSend evE1 (some nackR) 2 none)).events.map
        EventDetails.status = [.failed] := by
  constructor <;> rfl

/-- C4 witness: the record created by a concrete pre-send is accounted for
by `record_status_provenance` with a `pending` status. -/
theorem record_status_provenance_witness :
    mkEventDetails evE1 ∈ (initState 1000).events ∨
      ((mkEventDetails evE1).id = notifId (.preSend evE1 0) ∧
        (mkEventDetails evE1).status = stepStatus (.preSend evE1 0)) :=
  record_status_provenance (initState 1000) (.preSend evE1 0)
    (mkEventDetails evE1) (by decide)

/-! ## C2: broadcast fan-out of received counters -/

theorem fanOutReceived_cons (source : Option String) (etype : String)
    (p : String × List String) (rest : Subs) (recv : String → Nat) :
    fanOutReceived source etype (p :: rest) recv
      = fanOutReceived source etype rest
          (if source == some p.1 then recv
           else if p.2.contains etype then bump recv p.1 else recv) := rfl

theorem fanOutReceived_not_mem {source : Option String} {etype : String}
    {subs : Subs} {c : String} (h : c ∉ subs.map Prod.fst)
    (recv : String → Nat) :
    fanOutReceived source etype subs recv c = recv c := by
  induction subs generalizing recv with
  | nil => rfl
  | cons p rest ih =>
    simp only [List.map_cons, List.mem_cons, not_or] at h
    rw [fanOutReceived_cons, ih h.2]
    split
    · rfl
    · split
      · simp [bump, h.1]
      · rfl

theorem fanOutReceived_subscribed {source : Option String} {etype : String}
    {subs : Subs} {c : String} {types : List String}
    (hnd : (subs.map Prod.fst).Nodup) (hmem : (c, types) ∈ subs)
    (hsrc : source ≠ some c) (htype : etype ∈ types) (recv : String → Nat) :
    fanOutReceived source etype subs recv c = recv c + 1 := by
  induction subs generalizing recv with
  | nil => cases hmem
  | cons p rest ih =>
    simp only [List.map_cons, List.nodup_cons] at hnd
    rcases List.mem_cons.1 hmem with heq | hmem'
    · rw [fanOutReceived_cons]
      rw [← heq] at hnd ⊢
      have hno : c ∉ rest.map Prod.fst := hnd.1
      rw [fanOutReceived_not_mem hno]
      have hs : (source == some c) = false := by
        rw [beq_eq_false_iff_ne]
        exact hsrc
      rw [hs]
      simp [htype, bump]
    · have hc : c ∈ rest.map Prod.fst :=
        List.mem_map.2 ⟨(c, types), hmem', rfl⟩
      have hne : c ≠ p.1 := fun h => hnd.1 (h ▸ hc)
      rw [fanOutReceived_cons, ih hnd.2 hmem']
      split
      · rfl
      · split
        · simp [bump, hne]
        · rfl

theorem applyReceived_star_ack (s : DTState) (e : Ev)
    (res : Option EventResult) (broker : Option Subs)
    (hrec : e.mfeRecipient = some "*") (hack : isAckOpt res = true) :
    applyReceived s e res broker = handleBroadcastEventComplete s e res broker := by
  unfold applyReceived
  rw [hrec, hack]
  simp

theorem applyReceived_notAck (s : DTState) (e : Ev)
    (res : Option EventResult) (broker : Option Subs)
    (hack : isAckOpt res = false) :
    applyReceived s e res broker = s := by
  unfold applyReceived
  rw [hack]
  simp

theorem handleBroadcastEventComplete_recv (s : DTState) (e : Ev)
    (res : Option EventResult) (subs : Subs) (hack : isAckOpt res = true) :
    (handleBroadcastEventComplete s e res (some subs)).metrics.clientEventsReceived
      = fanOutReceived e.source e.type subs s.metrics.clientEventsReceived := by
  unfold handleBroadcastEventComplete
  rw [hack]
  simp

/-- C2: on an ACK completion of a broadcast event (recipient `"*"`), with
the broker's live subscription table available, every client subscribed to
the event's type other than the sender has its received counter incremented
by exactly 1; and on any non-ACK completion no client's received counter
changes at all. -/
theorem broadcast_received_increment (s : DTState) (e : Ev)
    (res : EventResult) (now : Nat) (subs : Subs) :
    (res.status = "ACK" → e.mfeRecipient = some "*" →
      (subs.map Prod.fst).Nodup →
      ∀ c types, (c, types) ∈ subs → e.source ≠ some c → e.type ∈ types →
        (handleEventComplete s e (some res) now
            (some subs)).metrics.clientEventsReceived c
          = s.metrics.clientEventsReceived c + 1) ∧
    (∀ (e2 : Ev) (res2 : Option EventResult) (broker : Option Subs)
        (c : String), isAckOpt res2 = false →
      (handleEventComplete s e2 res2 now broker).metrics.clientEventsReceived c
        = s.metrics.clientEventsReceived c) := by
  constructor
  · intro hack hrec hnd c types hmem hsrc htype
    have hack' : isAckOpt (some res) = true := by simp [isAckOpt, hack]
    show (updateEvent _ _ _).metrics.clientEventsReceived c = _
    rw [updateEvent_metrics, recordTally_received,
      applyReceived_star_ack _ _ _ _ hrec hack',
      handleBroadcastEventComplete_recv _ _ _ _ hack',
      applyLatency_received, catchUp_received]
    exact fanOutReceived_subscribed hnd hmem hsrc htype _
  · intro e2 res2 broker c hack
    show (updateEvent _ _ _).metrics.clientEventsReceived c = _
    rw [updateEvent_metrics, recordTally_received,
      applyReceived_notAck _ _ _ _ hack,
      applyLatency_received, catchUp_received]

/-- Fixture broadcast event. -/
def evStar : Ev :=
  { id := "e2", type := "t", source := some "a", mfeRecipient := some "*" }

/-- Fixture subscription table: sender `a` and client `b` subscribed to
`t`, client `d` subscribed to nothing. -/
def c2subs : Subs := [("a", ["t"]), ("b", ["t"]), ("d", [])]

/-- C2 witness: a concrete ACK broadcast increments subscribed non-sender
`b` by exactly one. -/
theorem broadcast_received_increment_witness :
    (handleEventComplete (initState 1000) evStar (some ackR) 1
        (some c2subs)).metrics.clientEventsReceived "b"
      = (initState 1000).metrics.clientEventsReceived "b" + 1 :=
  (broadcast_received_increment (initState 1000) evStar ackR 1 c2subs).1
    rfl rfl (by decide) "b" ["t"] (by decide) (by decide) (by decide)

/-! ## C8: bounded latency sample buffer -/

theorem pushLatency_length_le {lats : List Nat} (h : lats.length ≤ 1000)
    (lat : Nat) : (pushLatency lats lat).length ≤ 1000 := by
  simp only [pushLatency]
  split
  · simp only [List.length_drop]
    omega
  · rename_i hle
    simp only [gt_iff_lt, not_lt, List.length_append, List.length_singleton] at hle ⊢
    omega

theorem pushLatency_overflow (lats : List Nat) (lat : Nat)
    (h : 1000 < lats.length + 1) :
    pushLatency lats lat = lastN 500 (lats ++ [lat]) := by
  simp only [pushLatency, lastN]
  rw [if_pos]
  simp only [List.length_append, List.length_singleton]
  omega

theorem pushLatency_suffix (lats : List Nat) (lat : Nat) :
    List.IsSuffix (pushLatency lats lat) (lats ++ [lat]) := by
  simp only [pushLatency]
  split
  · exact List.drop_suffix _ _
  · exact List.suffix_refl _

theorem handleBroadcastEventComplete_latencies (s : DTState) (e : Ev)
    (res : Option EventResult) (broker : Option Subs) :
    (handleBroadcastEventComplete s e res broker).metrics.latencies
      = s.metrics.latencies := by
  unfold handleBroadcastEventComplete
  split
  · rfl
  · split <;> rfl

theorem applyReceived_latencies (s : DTState) (e : Ev)
    (res : Option EventResult) (broker : Option Subs) :
    (applyReceived s e res broker).metrics.latencies
      = s.metrics.latencies := by
  unfold applyReceived
  split
  · split
    · split
      · exact handleBroadcastEventComplete_latencies _ _ _ _
      · split <;> rfl
    · rfl
  · rfl

theorem applyLatency_latencies (s : DTState) (i : String) (now : Nat) :
    (applyLatency s i now).metrics.latencies = s.metrics.latencies ∨
      ∃ lat, (applyLatency s i now).metrics.latencies
        = pushLatency s.metrics.latencies lat := by
  unfold applyLatency
  split
  · rename_i st hst
    exact Or.inr ⟨now - st, rfl⟩
  · exact Or.inl rfl

theorem step_latencies_bound {s : DTState} (n : Notif)
    (h : s.metrics.latencies.length ≤ 1000) :
    (step s n).metrics.latencies.length ≤ 1000 := by
  cases n with
  | preSend e now =>
    show (addEvent _ _).metrics.latencies.length ≤ 1000
    rw [addEvent_metrics, recordSent_latencies]
    exact h
  | postSend e res now broker =>
    show (updateEvent _ _ _).metrics.latencies.length ≤ 1000
    rw [updateEvent_metrics, recordTally_latencies, applyReceived_latencies]
    rcases applyLatency_latencies (catchUp s e) e.id now with heq | ⟨lat, heq⟩
    · rw [heq, catchUp_latencies]
      exact h
    · rw [heq, catchUp_latencies]
      exact pushLatency_length_le h lat

theorem run_latencies_bound (ns : List Notif) :
    ∀ (s : DTState), s.metrics.latencies.length ≤ 1000 →
      (run s ns).metrics.latencies.length ≤ 1000 := by
  induction ns with
  | nil => exact fun s h => h
  | cons n rest ih => exact fun s h => ih _ (step_latencies_bound n h)

/-- C8: the latency sample buffer is bounded: along every notification
sequence its length never exceeds the fixed cap of 1000; when an append
pushes it past the cap it is truncated to the most recent half of the cap
(the last 500 samples, `slice(-500)`); and every push retains a suffix of
the samples appended so far (the most recently appended ones). -/
theorem latency_buffer_bounded :
    (∀ (maxH : Nat) (ns : List Notif),
      (run (initState maxH) ns).metrics.latencies.length ≤ 1000) ∧
    (∀ (lats : List Nat) (lat : Nat), 1000 < lats.length + 1 →
      pushLatency lats lat = lastN 500 (lats ++ [lat])) ∧
    (∀ (lats : List Nat) (lat : Nat),
      List.IsSuffix (pushLatency lats lat) (lats ++ [lat])) :=
  ⟨fun maxH ns => run_latencies_bound ns (initState maxH) (by simp [initState, initMetrics]),
   pushLatency_overflow, pushLatency_suffix⟩

/-- C8 witness: a full buffer of 1000 samples is truncated to the last 500
on the next push. -/
theorem latency_buffer_bounded_witness :
    pushLatency (List.replicate 1000 7) 9
      = lastN 500 (List.replicate 1000 7 ++ [9]) :=
  latency_buffer_bounded.2.1 (List.replicate 1000 7) 9
    (by rw [List.length_replicate]; omega)

/-! ## C3: bounded FIFO event history -/

theorem addEventList_length (maxH : Nat) (l : List EventDetails)
    (e : EventDetails) : (addEventList maxH l e).length ≤ maxH ∨
      (addEventList maxH l e).length = l.length + 1 := by
  simp only [addEventList]
  split
  · left
    rename_i h
    simp only [List.length_append, List.length_singleton, gt_iff_lt] at h
    simp only [List.length_drop, List.length_append, List.length_singleton]
    omega
  · right
    simp

theorem addEventList_length_le {maxH : Nat} {l : List EventDetails}
    (e : EventDetails) (h : l.length ≤ maxH) :
    (addEventList maxH l e).length ≤ maxH := by
  rcases addEventList_length maxH l e with h1 | h1
  · exact h1
  · rw [h1]
    by_contra hc
    have : maxH < l.length + 1 := by omega
    simp only [addEventList] at h1
    rw [if_pos (by simp only [List.length_append, List.length_singleton]; omega)] at h1
    simp only [List.length_drop, List.length_append, List.length_singleton] at h1
    omega

theorem addEventList_eq_lastN (maxH : Nat) (l : List EventDetails)
    (e : EventDetails) : addEventList maxH l e = lastN maxH (l ++ [e]) := by
  simp only [addEventList, lastN]
  split
  · rfl
  · rename_i h
    rw [Nat.sub_eq_zero_of_le (Nat.le_of_not_lt h), List.drop_zero]

theorem lastN_append_absorb (n : Nat) (X Y : List α) :
    lastN n (lastN n X ++ Y) = lastN n (X ++ Y) := by
  unfold lastN
  rcases le_or_lt X.length n with h | h
  · rw [Nat.sub_eq_zero_of_le h, List.drop_zero]
  · rw [← List.drop_append_of_le_length (Nat.sub_le X.length n),
      List.drop_drop]
    congr 1
    simp only [List.length_drop, List.length_append]
    omega

theorem catchUp_length_le {s : DTState} (e : Ev)
    (h : s.events.length ≤ s.maxEventHistory) :
    (catchUp s e).events.length ≤ s.maxEventHistory := by
  unfold catchUp
  split
  · exact h
  · exact addEventList_length_le _ h

theorem handleEventComplete_length (s : DTState) (e : Ev)
    (res : Option EventResult) (now : Nat) (broker : Option Subs) :
    (handleEventComplete s e res now broker).events.length
      = (catchUp s e).events.length := by
  rw [handleEventComplete_events, List.length_map]

theorem step_length_le {s : DTState} (n : Notif)
    (h : s.events.length ≤ s.maxEventHistory) :
    (step s n).events.length ≤ s.maxEventHistory := by
  cases n with
  | preSend e now => exact addEventList_length_le _ h
  | postSend e res now broker =>
    show (handleEventComplete s e res now broker).events.length ≤ _
    rw [handleEventComplete_length]
    exact catchUp_length_le e h

theorem step_max (s : DTState) (n : Notif) :
    (step s n).maxEventHistory = s.maxEventHistory := by
  cases n with
  | preSend e now => rfl
  | postSend e res now broker =>
    show (updateEvent _ _ _).maxEventHistory = _
    rw [updateEvent_max]
    show (applyReceived _ _ _ _).maxEventHistory = _
    rw [applyReceived_max, applyLatency_max, catchUp_max]

theorem stepOp_max (s : DTState) (op : Op) :
    (stepOp s op).maxEventHistory = s.maxEventHistory := by
  cases op with
  | notif n => exact step_max s n
  | clear => rfl

theorem stepOp_length_le {s : DTState} (op : Op)
    (h : s.events.length ≤ s.maxEventHistory) :
    (stepOp s op).events.length ≤ s.maxEventHistory := by
  cases op with
  | notif n => exact step_length_le n h
  | clear => exact Nat.zero_le _

theorem runOps_length_le (ops : List Op) :
    ∀ (s : DTState), s.events.length ≤ s.maxEventHistory →
      (runOps s ops).events.length ≤ s.maxEventHistory := by
  induction ops with
  | nil => exact fun s h => h
  | cons op rest ih =>
    intro s h
    have h1 := stepOp_length_le op h
    rw [← stepOp_max s op] at h1
    have := ih (stepOp s op) h1
    rwa [stepOp_max s op] at this

/-- A trace of pre-send notifications for the given events. -/
def preTrace (evs : List Ev) : List Notif :=
  evs.map fun e => .preSend e 0

theorem runPre_events (evs : List Ev) :
    ∀ (s : DTState), s.events.length ≤ s.maxEventHistory →
      (run s (preTrace evs)).events
        = lastN s.maxEventHistory (s.events ++ evs.map mkEventDetails) := by
  induction evs with
  | nil =>
    intro s h
    show s.events = lastN s.maxEventHistory (s.events ++ [])
    rw [List.append_nil]
    unfold lastN
    rw [Nat.sub_eq_zero_of_le h, List.drop_zero]
  | cons e rest ih =>
    intro s h
    show (run (handleEventStart s e 0) (preTrace rest)).events = _
    have h1 : (handleEventStart s e 0).events.length
        ≤ (handleEventStart s e 0).maxEventHistory :=
      addEventList_length_le _ h
    rw [ih (handleEventStart s e 0) h1]
    show lastN s.maxEventHistory
        (addEventList s.maxEventHistory s.events (mkEventDetails e)
          ++ rest.map mkEventDetails) = _
    rw [addEventList_eq_lastN, lastN_append_absorb, List.append_assoc]
    rfl

/-- The i-th scenario event (ids distinct by construction, though the FIFO
bound does not depend on it). -/
def scenarioEv (i : Nat) : Ev :=
  { id := toString i, type := "t", source := none, mfeRecipient := none }

/-- 1500 scenario events. -/
def scenarioEvents : List Ev := (List.range 1500).map scenarioEv

theorem scenarioEvents_length : scenarioEvents.length = 1500 := by
  simp [scenarioEvents]

/-- C3: (1) after every operation sequence (notifications and clears) from a
fresh manager the history length is at most the configured maximum; (2)
every insertion keeps exactly the most recent `maxEventHistory` records —
oldest evicted first; and (3) in particular pushing 1500 events with the
default cap 1000 leaves exactly 1000 records, namely the records of events
501..1500 (0-indexed: `drop 500`) in insertion order. -/
theorem event_history_bounded :
    (∀ (maxH : Nat) (ops : List Op),
      (runOps (initState maxH) ops).events.length ≤ maxH) ∧
    (∀ (s : DTState) (e : EventDetails),
      (addEvent s e).events = lastN s.maxEventHistory (s.events ++ [e])) ∧
    ((run (initState 1000) (preTrace scenarioEvents)).events
        = (scenarioEvents.map mkEventDetails).drop 500 ∧
      (run (initState 1000) (preTrace scenarioEvents)).events.length = 1000) := by
  refine ⟨fun maxH ops => runOps_length_le ops (initState maxH) (Nat.zero_le _),
    fun s e => addEventList_eq_lastN _ _ _, ?_, ?_⟩
  · rw [runPre_events scenarioEvents (initState 1000) (Nat.zero_le _)]
    show lastN 1000 ([] ++ scenarioEvents.map mkEventDetails) = _
    rw [List.nil_append]
    unfold lastN
    rw [List.length_map, scenarioEvents_length]
  · rw [runPre_events scenarioEvents (initState 1000) (Nat.zero_le _)]
    show (lastN 1000 ([] ++ scenarioEvents.map mkEventDetails)).length = 1000
    rw [List.nil_append]
    unfold lastN
    rw [List.length_drop, List.length_map, scenarioEvents_length]

/-! ## C5: ACK/NACK tallies and success rate -/

theorem recordTally_sum (m : Metrics) (t : String) (b : Bool) :
    (recordTally m t b).acksTotal + (recordTally m t b).nacksTotal
      = m.acksTotal + m.nacksTotal + 1 := by
  unfold recordTally
  split <;> simp <;> omega

theorem handleBroadcastEventComplete_acks (s : DTState) (e : Ev)
    (res : Option EventResult) (broker : Option Subs) :
    (handleBroadcastEventComplete s e res broker).metrics.acksTotal
        = s.metrics.acksTotal ∧
      (handleBroadcastEventComplete s e res broker).metrics.nacksTotal
        = s.metrics.nacksTotal := by
  unfold handleBroadcastEventComplete
  constructor <;>
    (split
     · rfl
     · split <;> rfl)

theorem applyReceived_acks (s : DTState) (e : Ev)
    (res : Option EventResult) (broker : Option Subs) :
    (applyReceived s e res broker).metrics.acksTotal = s.metrics.acksTotal ∧
      (applyReceived s e res broker).metrics.nacksTotal
        = s.metrics.nacksTotal := by
  unfold applyReceived
  constructor <;>
    (split
     · split
       · split
         · first
           | exact (handleBroadcastEventComplete_acks _ _ _ _).1
           | exact (handleBroadcastEventComplete_acks _ _ _ _).2
         · split <;> rfl
       · rfl
     · rfl)

theorem step_tallies (s : DTState) (n : Notif) :
    (step s n).metrics.acksTotal + (step s n).metrics.nacksTotal
      = s.metrics.acksTotal + s.metrics.nacksTotal
          + (if isPost n then 1 else 0) := by
  cases n with
  | preSend e now =>
    simp only [step, handleEventStart, addEvent]
    rw [(recordSent_acks _ _).1, (recordSent_acks _ _).2]
    simp [isPost, isPre]
  | postSend e res now broker =>
    show (updateEvent _ _ _).metrics.acksTotal
        + (updateEvent _ _ _).metrics.nacksTotal = _
    rw [updateEvent_metrics, recordTally_sum,
      (applyReceived_acks _ _ _ _).1, (applyReceived_acks _ _ _ _).2,
      (applyLatency_acks _ _ _).1, (applyLatency_acks _ _ _).2,
      (catchUp_acks _ _).1, (catchUp_acks _ _).2]
    rfl

theorem run_tallies (ns : List Notif) :
    ∀ (s : DTState),
      (run s ns).metrics.acksTotal + (run s ns).metrics.nacksTotal
        = s.metrics.acksTotal + s.metrics.nacksTotal
            + (ns.filter isPost).length := by
  induction ns with
  | nil => intro s; simp [run]
  | cons n rest ih =>
    intro s
    show (run (step s n) rest).metrics.acksTotal
        + (run (step s n) rest).metrics.nacksTotal = _
    rw [ih (step s n), step_tallies]
    cases hp : isPost n
    all_goals simp [List.filter_cons, hp]
    all_goals omega

theorem calculateSuccessRate_mem (m : Metrics) :
    0 ≤ calculateSuccessRate m ∧ calculateSuccessRate m ≤ 1 := by
  simp only [calculateSuccessRate]
  split
  · rename_i h
    constructor
    · positivity
    · rw [div_le_one (by exact_mod_cast h)]
      exact_mod_cast Nat.le_add_right m.acksTotal m.nacksTotal
  · exact ⟨le_refl 0, zero_le_one⟩

theorem calculateSuccessRate_zero (m : Metrics)
    (h1 : m.acksTotal = 0) (h2 : m.nacksTotal = 0) :
    calculateSuccessRate m = 0 := by
  unfold calculateSuccessRate
  rw [h1, h2]
  norm_num

/-- Fixture state: the same id completed twice with ACK (the second
completion finds the record already present and only re-increments the
tallies). -/
def c5state : DTState :=
  run (initState 1000)
    [.postSend evE1 (some ackR) 0 none, .postSend evE1 (some ackR) 1 none]

/-- C5 counterexample: after two ACK completions for one id, the ACK+NACK
tallies sum to 2 while the history holds exactly one completed (non-pending)
record — the claimed equality with the number of non-pending events fails. -/
theorem tallies_counterexample :
    c5state.metrics.acksTotal + c5state.metrics.nacksTotal = 2 ∧
    nonPendingCount c5state = 1 := by
  constructor <;> rfl

/-- C5 (amended): the ACK total plus the NACK total equals the number of
post-send notifications processed (each completion increments exactly one
tally by one — this equals the number of non-pending records only when no
id completes twice and no completed record is evicted or cleared); the
success rate `acks / (acks + nacks)` always lies in `[0, 1]` and equals `0`
when both totals are `0`. -/
theorem tallies_and_success_rate :
    (∀ (maxH : Nat) (ns : List Notif),
      (run (initState maxH) ns).metrics.acksTotal
          + (run (initState maxH) ns).metrics.nacksTotal
        = (ns.filter isPost).length) ∧
    (∀ m : Metrics, 0 ≤ calculateSuccessRate m ∧ calculateSuccessRate m ≤ 1) ∧
    (∀ m : Metrics, m.acksTotal = 0 → m.nacksTotal = 0 →
      calculateSuccessRate m = 0) := by
  refine ⟨fun maxH ns => ?_, calculateSuccessRate_mem, calculateSuccessRate_zero⟩
  rw [run_tallies ns (initState maxH)]
  simp [initState, initMetrics]

/-- C5 witness: the success rate of the fresh metrics record is `0`. -/
theorem tallies_and_success_rate_witness :
    calculateSuccessRate initMetrics = 0 :=
  tallies_and_success_rate.2.2 initMetrics rfl rfl

/-! ## C1: total event counter vs distinct ids -/

theorem addEventList_of_le {maxH : Nat} {l : List EventDetails}
    (e : EventDetails) (h : l.length + 1 ≤ maxH) :
    addEventList maxH l e = l ++ [e] := by
  simp only [addEventList]
  rw [if_neg]
  simp only [List.length_append, List.length_singleton, gt_iff_lt, not_lt]
  omega

theorem find?_id_isSome (l : List EventDetails) (x : String) :
    (l.find? fun r => r.id == x).isSome = true ↔ x ∈ l.map EventDetails.id := by
  rw [List.find?_isSome]
  constructor
  · rintro ⟨r, hr, hp⟩
    exact List.mem_map.2 ⟨r, hr, by simpa using hp⟩
  · intro hx
    rcases List.mem_map.1 hx with ⟨r, hr, hid⟩
    exact ⟨r, hr, by simp [hid]⟩

theorem length_le_of_nodup_subset {l1 l2 : List String}
    (h1 : l1.Nodup) (hsub : l1 ⊆ l2) : l1.length ≤ l2.length :=
  (h1.subperm hsub).length_le

theorem dedup_length_le_of_subset {l1 l2 : List String}
    (h : l1 ⊆ l2) : l1.dedup.length ≤ l2.dedup.length :=
  length_le_of_nodup_subset (List.nodup_dedup l1)
    (fun _ hx => List.mem_dedup.2 (h (List.mem_dedup.1 hx)))

theorem catchUp_of_mem {s : DTState} {e : Ev} (h : e.id ∈ histIds s) :
    catchUp s e = s := by
  unfold catchUp
  rw [if_pos ((find?_id_isSome s.events e.id).2 h)]

theorem catchUp_not_mem_events {s : DTState} {e : Ev}
    (h : e.id ∉ histIds s) (hlen : s.events.length + 1 ≤ s.maxEventHistory) :
    (catchUp s e).events = s.events ++ [mkEventDetails e] := by
  unfold catchUp
  rw [if_neg (by rw [find?_id_isSome]; exact h)]
  exact addEventList_of_le _ hlen

theorem catchUp_not_mem_total {s : DTState} {e : Ev} (h : e.id ∉ histIds s) :
    (catchUp s e).metrics.total = s.metrics.total + 1 := by
  unfold catchUp
  rw [if_neg (by rw [find?_id_isSome]; exact h)]
  show (recordSent _ e.source).total = _
  rw [recordSent_total]

theorem handleEventStart_total (s : DTState) (e : Ev) (now : Nat) :
    (handleEventStart s e now).metrics.total = s.metrics.total + 1 := by
  show (recordSent _ e.source).total = _
  rw [recordSent_total]

theorem handleEventStart_events {s : DTState} (e : Ev) (now : Nat)
    (hlen : s.events.length + 1 ≤ s.maxEventHistory) :
    (handleEventStart s e now).events = s.events ++ [mkEventDetails e] := by
  show addEventList s.maxEventHistory s.events (mkEventDetails e) = _
  exact addEventList_of_le _ hlen

theorem handleEventComplete_total (s : DTState) (e : Ev)
    (res : Option EventResult) (now : Nat) (broker : Option Subs) :
    (handleEventComplete s e res now broker).metrics.total
      = (catchUp s e).metrics.total := by
  show (updateEvent _ _ _).metrics.total = _
  rw [updateEvent_metrics, recordTally_total, applyReceived_total,
    applyLatency_total]

theorem histIds_handleEventComplete (s : DTState) (e : Ev)
    (res : Option EventResult) (now : Nat) (broker : Option Subs) :
    histIds (handleEventComplete s e res now broker)
      = histIds (catchUp s e) := by
  unfold histIds
  rw [handleEventComplete_events, List.map_map]
  apply List.map_congr_left
  intro x hx
  clear hx
  show (if x.id == e.id then completeUpd _ _ _ x else x).id = x.id
  split <;> rfl

theorem fresh_no_evict {s : DTState} {x : String} {rest' : List String}
    (h3 : (histIds s).Nodup) (hfresh : x ∉ histIds s)
    (hcap : (histIds s ++ (x :: rest')).dedup.length ≤ s.maxEventHistory) :
    s.events.length + 1 ≤ s.maxEventHistory ∧ (histIds s ++ [x]).Nodup := by
  have hnodup1 : (histIds s ++ [x]).Nodup := by
    rw [List.nodup_append]
    refine ⟨h3, List.nodup_singleton _, ?_⟩
    intro y hy hy2
    rw [List.mem_singleton] at hy2
    subst hy2
    exact hfresh hy
  refine ⟨?_, hnodup1⟩
  have hsub : (histIds s ++ [x]) ⊆ (histIds s ++ (x :: rest')).dedup := by
    intro y hy
    rw [List.mem_dedup]
    rcases List.mem_append.1 hy with hy1 | hy1
    · exact List.mem_append.2 (Or.inl hy1)
    · rw [List.mem_singleton] at hy1
      subst hy1
      exact List.mem_append.2 (Or.inr (List.mem_cons_self _ _))
  have hle := le_trans (length_le_of_nodup_subset hnodup1 hsub) hcap
  simpa [histIds] using hle

theorem run_total_invariant (ns : List Notif) :
    ∀ (s : DTState),
      ns.Pairwise (fun a b => isPre b = true → notifId a ≠ notifId b) →
      (∀ n ∈ ns, isPre n = true → notifId n ∉ histIds s) →
      (histIds s).Nodup →
      s.metrics.total = s.events.length →
      (histIds s ++ ns.map notifId).dedup.length ≤ s.maxEventHistory →
      (run s ns).metrics.total = (run s ns).events.length ∧
      (histIds (run s ns)).Nodup ∧
      (∀ x, x ∈ histIds (run s ns) ↔ x ∈ histIds s ∨ x ∈ ns.map notifId) := by
  induction ns with
  | nil =>
    intro s _ _ h3 h4 _
    exact ⟨h4, h3, fun x => by simp [run]⟩
  | cons n rest ih =>
    intro s hpw hpre h3 h4 hcap
    obtain ⟨hhead, htail⟩ := List.pairwise_cons.1 hpw
    have hcap0 : (histIds s ++ (notifId n :: rest.map notifId)).dedup.length
        ≤ s.maxEventHistory := by simpa using hcap
    cases n with
    | preSend e now =>
      have hfresh : e.id ∉ histIds s :=
        hpre _ (List.mem_cons_self _ _) rfl
      obtain ⟨hlen, hnodup1⟩ := fresh_no_evict h3 hfresh hcap0
      have hev : (handleEventStart s e now).events
          = s.events ++ [mkEventDetails e] := handleEventStart_events e now hlen
      have hti : histIds (handleEventStart s e now) = histIds s ++ [e.id] := by
        unfold histIds
        rw [hev, List.map_append]
        rfl
      have hmax : (handleEventStart s e now).maxEventHistory
          = s.maxEventHistory := rfl
      have hpre2 : ∀ m ∈ rest, isPre m = true →
          notifId m ∉ histIds (handleEventStart s e now) := by
        intro m hm hpm
        rw [hti]
        intro hmem
        rcases List.mem_append.1 hmem with h1 | h1
        · exact hpre m (List.mem_cons_of_mem _ hm) hpm h1
        · rw [List.mem_singleton] at h1
          exact hhead m hm hpm h1.symm
      have htot2 : (handleEventStart s e now).metrics.total
          = (handleEventStart s e now).events.length := by
        rw [handleEventStart_total, h4, hev, List.length_append]
        rfl
      have hcap2 : (histIds (handleEventStart s e now) ++ rest.map notifId).dedup.length
          ≤ (handleEventStart s e now).maxEventHistory := by
        rw [hti, hmax]
        refine le_trans (dedup_length_le_of_subset ?_) hcap0
        intro x hx
        simp only [List.mem_append, List.mem_singleton, List.mem_cons] at hx ⊢
        tauto
      obtain ⟨ht, hn, hm⟩ := ih (handleEventStart s e now) htail hpre2
        (hti ▸ hnodup1) htot2 hcap2
      refine ⟨ht, hn, fun x => ?_⟩
      rw [show run s (Notif.preSend e now :: rest)
            = run (handleEventStart s e now) rest from rfl, hm x, hti]
      simp only [List.mem_append, List.mem_singleton, List.map_cons,
        List.mem_cons, notifId]
      tauto
    | postSend e res now broker =>
      by_cases hmem : e.id ∈ histIds s
      · have hcu : catchUp s e = s := catchUp_of_mem hmem
        have htot : (handleEventComplete s e res now broker).metrics.total
            = s.metrics.total := by
          rw [handleEventComplete_total, hcu]
        have hti : histIds (handleEventComplete s e res now broker)
            = histIds s := by
          rw [histIds_handleEventComplete, hcu]
        have hlen2 : (handleEventComplete s e res now broker).events.length
            = s.events.length := by
          have hc := congrArg List.length hti
          simpa [histIds] using hc
        have hmax : (handleEventComplete s e res now broker).maxEventHistory
            = s.maxEventHistory := step_max s (.postSend e res now broker)
        have hpre2 : ∀ m ∈ rest, isPre m = true →
            notifId m ∉ histIds (handleEventComplete s e res now broker) := by
          intro m hm hpm
          rw [hti]
          exact hpre m (List.mem_cons_of_mem _ hm) hpm
        have htot2 : (handleEventComplete s e res now broker).metrics.total
            = (handleEventComplete s e res now broker).events.length := by
          rw [htot, hlen2, h4]
        have hcap2 : (histIds (handleEventComplete s e res now broker)
              ++ rest.map notifId).dedup.length
            ≤ (handleEventComplete s e res now broker).maxEventHistory := by
          rw [hti, hmax]
          refine le_trans (dedup_length_le_of_subset ?_) hcap0
          intro x hx
          simp only [List.mem_append, List.mem_cons] at hx ⊢
          tauto
        obtain ⟨ht, hn, hm⟩ := ih (handleEventComplete s e res now broker)
          htail hpre2 (hti ▸ h3) htot2 hcap2
        refine ⟨ht, hn, fun x => ?_⟩
        rw [show run s (Notif.postSend e res now broker :: rest)
              = run (handleEventComplete s e res now broker) rest from rfl,
          hm x, hti]
        simp only [List.map_cons, List.mem_cons, notifId]
        constructor
        · tauto
        · rintro (h1 | h1 | h1)
          · tauto
          · subst h1
            exact Or.inl hmem
          · tauto
      · obtain ⟨hlen, hnodup1⟩ := fresh_no_evict h3 hmem hcap0
        have hev : (catchUp s e).events = s.events ++ [mkEventDetails e] :=
          catchUp_not_mem_events hmem hlen
        have htot : (handleEventComplete s e res now broker).metrics.total
            = s.metrics.total + 1 := by
          rw [handleEventComplete_total, catchUp_not_mem_total hmem]
        have hti : histIds (handleEventComplete s e res now broker)
            = histIds s ++ [e.id] := by
          rw [histIds_handleEventComplete]
          unfold histIds
          rw [hev, List.map_append]
          rfl
        have hlen2 : (handleEventComplete s e res now broker).events.length
            = s.events.length + 1 := by
          have hc := congrArg List.length hti
          simpa [histIds] using hc
        have hmax : (handleEventComplete s e res now broker).maxEventHistory
            = s.maxEventHistory := step_max s (.postSend e res now broker)
        have hpre2 : ∀ m ∈ rest, isPre m = true →
            notifId m ∉ histIds (handleEventComplete s e res now broker) := by
          intro m hm hpm
          rw [hti]
          intro hmem2
          rcases List.mem_append.1 hmem2 with h1 | h1
          · exact hpre m (List.mem_cons_of_mem _ hm) hpm h1
          · rw [List.mem_singleton] at h1
            exact hhead m hm hpm h1.symm
        have htot2 : (handleEventComplete s e res now broker).metrics.total
            = (handleEventComplete s e res now broker).events.length := by
          rw [htot, hlen2, h4]
        have hcap2 : (histIds (handleEventComplete s e res now broker)
              ++ rest.map notifId).dedup.length
            ≤ (handleEventComplete s e res now broker).maxEventHistory := by
          rw [hti, hmax]
          refine le_trans (dedup_length_le_of_subset ?_) hcap0
          intro x hx
          simp only [List.mem_append, List.mem_singleton, List.mem_cons] at hx ⊢
          tauto
        obtain ⟨ht, hn, hm⟩ := ih (handleEventComplete s e res now broker)
          htail hpre2 (hti ▸ hnodup1) htot2 hcap2
        refine ⟨ht, hn, fun x => ?_⟩
        rw [show run s (Notif.postSend e res now broker :: rest)
              = run (handleEventComplete s e res now broker) rest from rfl,
          hm x, hti]
        simp only [List.mem_append, List.mem_singleton, List.map_cons,
          List.mem_cons, notifId]
        tauto

/-- C1 counterexample: two pre-send notifications carrying the same event id
are each counted (no existence check in `handleEventStart`), so the total
counter reaches 2 while only 1 distinct id was observed. -/
theorem total_counts_counterexample :
    (run (initState 1000)
        [.preSend evE1 0, .preSend evE1 1]).metrics.total = 2 ∧
    (([Notif.preSend evE1 0,
        Notif.preSend evE1 1]).map notifId).dedup.length = 1 := by
  constructor
  · rfl
  · rfl

/-- C1 (amended): the total-event counter equals the number of distinct
event ids observed for every notification sequence in which no notification
is followed by a pre-send carrying the same id (each id is pre-sent at most
once, and never after one of its completions) and the number of distinct
ids does not exceed the history cap (so no record is evicted before its
completion arrives).  Post-sends without a prior pre-send, and repeated
post-sends, remain covered. -/
theorem total_counts_distinct_ids (maxH : Nat) (ns : List Notif)
    (hpw : ns.Pairwise fun a b => isPre b = true → notifId a ≠ notifId b)
    (hcap : (ns.map notifId).dedup.length ≤ maxH) :
    (run (initState maxH) ns).metrics.total
      = (ns.map notifId).dedup.length := by
  obtain ⟨h1, h2, h3⟩ := run_total_invariant ns (initState maxH) hpw
    (by intro n _ _; simp [histIds, initState])
    (by simp [histIds, initState])
    rfl
    (by simpa [histIds, initState] using hcap)
  rw [h1, show (run (initState maxH) ns).events.length
      = (histIds (run (initState maxH) ns)).length by simp [histIds]]
  have hperm : List.Perm (histIds (run (initState maxH) ns))
      ((ns.map notifId).dedup) := by
    rw [List.perm_ext_iff_of_nodup h2 (List.nodup_dedup _)]
    intro x
    rw [List.mem_dedup]
    have hx := h3 x
    simpa [histIds, initState] using hx
  exact hperm.length_eq

/-- Fixture trace for the C1 witness: one event pre-sent then completed,
one event only pre-sent. -/
def c1trace : List Notif :=
  [.preSend evE1 0, .postSend evE1 (some ackR) 1 none, .preSend evStar 2]

/-- C1 witness: on the fixture trace the total counter equals the 2
distinct ids. -/
theorem total_counts_distinct_ids_witness :
    (run (initState 1000) c1trace).metrics.total
      = (c1trace.map notifId).dedup.length :=
  total_counts_distinct_ids 1000 c1trace (by decide) (by decide)
